import Mathlib

/-
Verification of the PE-Import-Analyzer script (PE-Import-Analyzer.py).

The script parses a PE file with LIEF, extracts its import table grouped by
DLL, sorts everything case-insensitively, and renders a text or HTML report
annotated from a static catalog, optionally flagging dangerous functions.

The shallow embedding below models the LIEF parse outcome abstractly (the
script delegates all binary parsing to the external `lief` library) and
translates the script's own functions faithfully:
  - `extract_and_sort_imports` over an abstract parse result,
  - `generate_text_output` / `generate_html_output` parametric in the
    `nested_dict` argument exactly as in the source (the script passes the
    module-level catalog `dll_api_explanations` at the call sites in `main`),
  - `mainRun`, the effect summary of `main` (printed lines, file writes,
    process exit status).
Python dictionaries (insertion-ordered, unique keys) are modelled as
association lists. Python string primitives used by the script are modelled
executably at the character-list level: `pyLower` models str.lower (ASCII
case folding, which covers every name the script compares), `charListLe`
models Python's code-point-lexicographic string comparison, and `pyStrip`
models str.strip. Python's stable `sorted(key=str.lower)` is modelled by
`List.insertionSort` on the lower-cased-comparison relation, which inserts
each element before later elements of equal key, matching stable sorting.
-/

namespace PEA

/-- Decidable equality for Except, needed to evaluate concrete runs of the
extractor. -/
instance {ε α : Type} [DecidableEq ε] [DecidableEq α] : DecidableEq (Except ε α) := fun
  | .error x, .error y =>
    match decEq x y with
    | isTrue h => isTrue (h ▸ rfl)
    | isFalse h => isFalse fun hh => h (Except.error.inj hh)
  | .error _, .ok _ => isFalse fun hh => Except.noConfusion hh
  | .ok _, .error _ => isFalse fun hh => Except.noConfusion hh
  | .ok x, .ok y =>
    match decEq x y with
    | isTrue h => isTrue (h ▸ rfl)
    | isFalse h => isFalse fun hh => h (Except.ok.inj hh)

/-- Model of Python str.lower for the ASCII names the script handles:
lower-case every character. -/
def pyLower (s : String) : String := ⟨s.data.map Char.toLower⟩

/-- Model of Python str.strip: drop whitespace from both ends. -/
def pyStrip (s : String) : String :=
  ⟨((s.data.dropWhile Char.isWhitespace).reverse.dropWhile Char.isWhitespace).reverse⟩

/-- Model of Python string comparison: lexicographic on code points, a
proper prefix is smaller. -/
def charListLe : List Char → List Char → Bool
  | [], _ => true
  | _ :: _, [] => false
  | a :: as, b :: bs =>
    if a.toNat < b.toNat then true
    else if b.toNat < a.toNat then false
    else charListLe as bs

theorem charListLe_head_le {x y : Char} {xs ys : List Char}
    (h : charListLe (x :: xs) (y :: ys) = true) : x.toNat ≤ y.toNat := by
  by_cases h1 : x.toNat < y.toNat
  · exact Nat.le_of_lt h1
  · by_cases h2 : y.toNat < x.toNat
    · simp [charListLe, h1, h2] at h
    · omega

theorem charListLe_total : ∀ (a b : List Char), charListLe a b = true ∨ charListLe b a = true := by
  intro a
  induction a with
  | nil => intro b; left; rfl
  | cons x xs ih =>
    intro b
    cases b with
    | nil => right; rfl
    | cons y ys =>
      by_cases h1 : x.toNat < y.toNat
      · left; simp [charListLe, h1]
      · by_cases h2 : y.toNat < x.toNat
        · right; simp [charListLe, h2]
        · rcases ih ys with h | h
          · left; simp [charListLe, h1, h2, h]
          · right; simp [charListLe, h1, h2, h]

theorem charListLe_trans :
    ∀ (a b c : List Char), charListLe a b = true → charListLe b c = true →
      charListLe a c = true := by
  intro a
  induction a with
  | nil => intro b c _ _; rfl
  | cons x xs ih =>
    intro b c hab hbc
    cases b with
    | nil => simp [charListLe] at hab
    | cons y ys =>
      cases c with
      | nil => simp [charListLe] at hbc
      | cons z zs =>
        have hxy := charListLe_head_le hab
        have hyz := charListLe_head_le hbc
        by_cases hxz : x.toNat < z.toNat
        · simp [charListLe, hxz]
        · have ex : x.toNat = y.toNat := by omega
          have ey : y.toNat = z.toNat := by omega
          have hab' : charListLe xs ys = true := by
            simpa [charListLe, ex, Nat.lt_irrefl] using hab
          have hbc' : charListLe ys zs = true := by
            simpa [charListLe, ey, Nat.lt_irrefl] using hbc
          have : charListLe xs zs = true := ih ys zs hab' hbc'
          simp [charListLe, hxz, this]
          omega

/-- Comparison relation used wherever the script sorts with key=str.lower:
compare the lower-cased strings by code points. -/
def lowerLe (a b : String) : Prop := charListLe (pyLower a).data (pyLower b).data = true

instance : DecidableRel lowerLe :=
  fun _ _ => inferInstanceAs (Decidable (_ = true))

instance : IsTotal String lowerLe := ⟨fun _ _ => charListLe_total _ _⟩

instance : IsTrans String lowerLe := ⟨fun _ _ _ h h2 => charListLe_trans _ _ _ h h2⟩

/-- Key comparison for sorting the (dll, functions) pairs of the final table,
modelling sorted(imports_by_dll, key=str.lower) over the dict keys. -/
def pairLe (a b : String × List String) : Prop := lowerLe a.1 b.1

instance : DecidableRel pairLe := fun a b => inferInstanceAs (Decidable (lowerLe a.1 b.1))

instance : IsTotal (String × List String) pairLe := ⟨fun _ _ => charListLe_total _ _⟩

instance : IsTrans (String × List String) pairLe := ⟨fun _ _ _ h h2 => charListLe_trans _ _ _ h h2⟩

/-- Model of one lief import entry: the function name (empty string when the
entry carries no name, matching Python truthiness of entry.name) and the
ordinal number. -/
structure ImportEntry where
  name : String
  ordinal : Nat
deriving DecidableEq, Repr

/-- Model of one lief PE import descriptor: the DLL name (empty when absent)
and its list of entries. -/
structure PEImport where
  name : String
  entries : List ImportEntry
deriving DecidableEq, Repr

/-- Model of a parsed lief.PE.Binary: its list of import descriptors. -/
structure PEBinary where
  imports : List PEImport
deriving DecidableEq, Repr

/-- Outcome of lief.parse at the start of extract_and_sort_imports:
either a falsy result, a binary that is not a lief.PE.Binary, or a PE. -/
inductive ParseResult where
  | parseFailed
  | notPE
  | pe (b : PEBinary)
deriving DecidableEq, Repr

/-- DLL name used for grouping: `imp.name or "UNKNOWN_DLL"`. -/
def mappedDllName (imp : PEImport) : String :=
  if imp.name = "" then "UNKNOWN_DLL" else imp.name

/-- Function name recorded for an entry:
`entry.name if entry.name else f"Ordinal_{entry.ordinal}"`. -/
def renderEntry (e : ImportEntry) : String :=
  if e.name = "" then "Ordinal_" ++ toString e.ordinal else e.name

/-- Model of `imports_by_dll[dll_name].append(func)`: append `f` at the (first)
occurrence of key `dll` in the association list. -/
def addFunc : List (String × List String) → String → String → List (String × List String)
  | [], _, _ => []
  | (d, fs) :: rest, dll, f =>
    if d = dll then (d, fs ++ [f]) :: rest else (d, fs) :: addFunc rest dll f

/-- Model of the body of the `for imp in binary.imports` loop: ensure the key
exists (inserting an empty list at the end, matching dict insertion order),
then append every rendered entry. -/
def addImport (m : List (String × List String)) (imp : PEImport) : List (String × List String) :=
  let dll := mappedDllName imp
  let m' := if m.any (fun p => p.1 == dll) then m else m ++ [(dll, [])]
  imp.entries.foldl (fun acc e => addFunc acc dll (renderEntry e)) m'

/-- The `imports_by_dll` dict after the extraction loop. -/
def buildTable (imps : List PEImport) : List (String × List String) :=
  imps.foldl addImport []

/-- Model of extract_and_sort_imports: raise ValueError("Not a valid PE file.")
when lief.parse fails or yields a non-PE binary; otherwise group entries by
DLL, sort each function list with key=str.lower, and sort the keys with
key=str.lower. -/
def extract_and_sort_imports (r : ParseResult) :
    Except String (List (String × List String)) :=
  match r with
  | .parseFailed => .error "Not a valid PE file."
  | .notPE => .error "Not a valid PE file."
  | .pe b =>
    let t := (buildTable b.imports).map (fun p => (p.1, List.insertionSort lowerLe p.2))
    .ok (List.insertionSort pairLe t)

/-- Catalog entry for one DLL: its explanation and its api-name-to-explanation
dictionary (lower-cased keys). -/
structure DllInfo where
  explanation : String
  apis : List (String × String)
deriving DecidableEq, Repr

/-- Shape of the module-level catalog dll_api_explanations. -/
abbrev NestedDict := List (String × DllInfo)

/-- The constant DEFAULT_EXPLANATION of the script. -/
def DEFAULT_EXPLANATION : String :=
  "No explanation available. Please refer to official documentation."

/-- The module-level dangerous_functions list, verbatim from the script. -/
def dangerous_functions : List String :=
  ["createremotethread", "writeprocessmemory", "virtualalloc", "setunhandledexceptionfilter",
   "regcreatekeyexa", "regcreatekeyexw", "regsetvalueexa", "getprocaddress", "loadlibrary",
   "internetconnecta", "httpsendrequesta", "httpendrequesta", "cryptencrypt", "cryptdecrypt"]

/-- Model of the per-DLL function loop of generate_text_output: `printed`
counts the functions rendered with an explanation; the loop breaks once
`printed >= 20`, checked after each appended line. -/
def textFuncLines (info : DllInfo) : List String → Nat → List String
  | [], _ => []
  | api :: rest, printed =>
    match info.apis.lookup (pyLower api) with
    | some expl =>
      if printed + 1 ≥ 20 then ["    " ++ api ++ ": " ++ expl]
      else ("    " ++ api ++ ": " ++ expl) :: textFuncLines info rest (printed + 1)
    | none =>
      if printed ≥ 20 then ["    " ++ api]
      else ("    " ++ api) :: textFuncLines info rest printed

/-- Lines generate_text_output appends for one (dll, functions) pair: nothing
when dll.lower() is not a key of nested_dict, else header, explanation, the
function lines, and a blank line. -/
def textDllBlock (nd : NestedDict) (dll : String) (functions : List String) : List String :=
  match nd.lookup (pyLower dll) with
  | none => []
  | some info =>
    (dll ++ ":") :: ("    DLL Explanation: " ++ info.explanation)
      :: (textFuncLines info (List.insertionSort lowerLe functions) 0 ++ [""])

/-- Model of the explanation search in the dangerous-function loops: the first
DLL value (in catalog insertion order) whose apis contain func.lower(). -/
def findApiExplanation : NestedDict → String → Option String
  | [], _ => none
  | (_, info) :: rest, func =>
    match info.apis.lookup (pyLower func) with
    | some e => some e
    | none => findApiExplanation rest func

/-- Line generate_text_output renders for one dangerous function: name plus
explanation when one was found, is truthy and differs from
DEFAULT_EXPLANATION, else the bare name. -/
def dangerousEntryLine (nd : NestedDict) (func : String) : String :=
  match findApiExplanation nd func with
  | some e =>
    if e ≠ "" ∧ e ≠ DEFAULT_EXPLANATION then "    " ++ func ++ ": " ++ e
    else "    " ++ func
  | none => "    " ++ func

/-- The `if dangerous_set:` block of generate_text_output. -/
def textDangerousSection (nd : NestedDict) (ds : List String) : List String :=
  if ds = [] then []
  else "Most Dangerous/Suspicious Functions:"
    :: (List.insertionSort lowerLe ds).map (dangerousEntryLine nd)

/-- The lines of generate_text_output: the per-DLL blocks followed by the
optional dangerous-function section. -/
def textOutputLines (sorted_imports : List (String × List String))
    (nested_dict : NestedDict) (dangerous_set : List String) : List String :=
  (sorted_imports.flatMap fun p => textDllBlock nested_dict p.1 p.2)
    ++ textDangerousSection nested_dict dangerous_set

/-- Model of generate_text_output: its lines joined by newlines. -/
def generate_text_output (sorted_imports : List (String × List String))
    (nested_dict : NestedDict) (dangerous_set : List String) : String :=
  String.intercalate "\n" (textOutputLines sorted_imports nested_dict dangerous_set)

/-- Model of Python's html.escape with quote=True, which the script applies to
every interpolated string: ampersand, angle brackets and both quote characters
are replaced by entities. The sequential str.replace chain of the library is
equivalent to this per-character map. -/
def html_escapeChar (c : Char) : String :=
  if c = '&' then "&amp;"
  else if c = '<' then "&lt;"
  else if c = '>' then "&gt;"
  else if c = Char.ofNat 34 then "&quot;"
  else if c = Char.ofNat 39 then "&#x27;"
  else String.singleton c

/-- html.escape applied to a whole string. -/
def html_escape (s : String) : String := ⟨s.data.flatMap fun c => (html_escapeChar c).data⟩

/-- The fixed prologue lines of generate_html_output (the source's brace
characters in the CSS lines are written with character escapes). -/
def htmlHeader : List String :=
  ["<html>", "<head>", "<title>PE Import Analysis</title>", "<style>",
   "table \x7b border-collapse: collapse; width: 90%; margin: 10px; \x7d",
   "th, td \x7b border: 1px solid #ddd; padding: 8px; \x7d",
   "th \x7b background-color: #f2f2f2; \x7d",
   "</style>", "</head>", "<body>", "<h1>PE Import Analysis</h1>"]

/-- Model of the per-DLL row loop of generate_html_output, with the same
`printed` counter and break as the text renderer. -/
def htmlFuncRows (info : DllInfo) : List String → Nat → List String
  | [], _ => []
  | api :: rest, printed =>
    match info.apis.lookup (pyLower api) with
    | some expl =>
      if printed + 1 ≥ 20 then
        ["<tr><td>" ++ html_escape api ++ "</td><td>" ++ html_escape expl ++ "</td></tr>"]
      else ("<tr><td>" ++ html_escape api ++ "</td><td>" ++ html_escape expl ++ "</td></tr>")
        :: htmlFuncRows info rest (printed + 1)
    | none =>
      if printed ≥ 20 then ["<tr><td>" ++ html_escape api ++ "</td><td></td></tr>"]
      else ("<tr><td>" ++ html_escape api ++ "</td><td></td></tr>")
        :: htmlFuncRows info rest printed

/-- Lines generate_html_output appends for one (dll, functions) pair. -/
def htmlDllBlock (nd : NestedDict) (dll : String) (functions : List String) : List String :=
  match nd.lookup (pyLower dll) with
  | none => []
  | some info =>
    ("<h2>" ++ html_escape dll ++ "</h2>")
      :: ("<p><strong>DLL Explanation:</strong> " ++ html_escape info.explanation ++ "</p>")
      :: "<table>"
      :: "<tr><th>API Function</th><th>Explanation</th></tr>"
      :: (htmlFuncRows info (List.insertionSort lowerLe functions) 0 ++ ["</table>"])

/-- Row generate_html_output renders for one dangerous function. -/
def htmlDangerousRow (nd : NestedDict) (func : String) : String :=
  match findApiExplanation nd func with
  | some e =>
    if e ≠ "" ∧ e ≠ DEFAULT_EXPLANATION then
      "<tr><td>" ++ html_escape func ++ "</td><td>" ++ html_escape e ++ "</td></tr>"
    else "<tr><td>" ++ html_escape func ++ "</td><td></td></tr>"
  | none => "<tr><td>" ++ html_escape func ++ "</td><td></td></tr>"

/-- The `if dangerous_set:` block of generate_html_output. -/
def htmlDangerousSection (nd : NestedDict) (ds : List String) : List String :=
  if ds = [] then []
  else "<h2>Most Dangerous/Suspicious Functions</h2>"
    :: "<table>"
    :: "<tr><th>API Function</th><th>Explanation</th></tr>"
    :: ((List.insertionSort lowerLe ds).map (htmlDangerousRow nd) ++ ["</table>"])

/-- The lines of generate_html_output. -/
def htmlOutputLines (sorted_imports : List (String × List String))
    (nested_dict : NestedDict) (dangerous_set : List String) : List String :=
  htmlHeader
    ++ (sorted_imports.flatMap fun p => htmlDllBlock nested_dict p.1 p.2)
    ++ htmlDangerousSection nested_dict dangerous_set
    ++ ["</body></html>"]

/-- Model of generate_html_output: its lines joined by newlines. -/
def generate_html_output (sorted_imports : List (String × List String))
    (nested_dict : NestedDict) (dangerous_set : List String) : String :=
  String.intercalate "\n" (htmlOutputLines sorted_imports nested_dict dangerous_set)

/-- The dangerous_found set computed in main: every imported function whose
lower-cased name is in dangerous_functions; a Python set, modelled as a
duplicate-free list. -/
def dangerous_found (table : List (String × List String)) : List String :=
  ((table.flatMap Prod.snd).filter
    (fun api => dangerous_functions.contains (pyLower api))).dedup

/-- Observable effects of one run of main: lines printed to stdout, files
written (name, content), and the process exit status. -/
structure MainResult where
  printed : List String
  writes : List (String × String)
  exitCode : Nat
deriving DecidableEq, Repr

/-- The dangerous-set argument main passes to the renderer:
`dangerous_found if include_dangerous else []`. -/
def mainDangerousArg (table : List (String × List String)) (include_dangerous : Bool) :
    List String :=
  if include_dangerous then dangerous_found table else []

/-- Effect summary of main. The parse outcome and the three interactive
answers are inputs; base_name stands for
os.path.splitext(os.path.basename(file_path))[0]. `nd` is the catalog the
script passes at the call sites (the module-level dll_api_explanations).
Any exception from extraction is caught, an error line is printed, and main
returns normally, so the interpreter exits with status 0 on that path. -/
def mainRun (nd : NestedDict) (r : ParseResult)
    (ansDanger ansHtml ansFile base_name : String) : MainResult :=
  match extract_and_sort_imports r with
  | .error e => { printed := ["Error: " ++ e], writes := [], exitCode := 0 }
  | .ok sorted_imports =>
    let include_dangerous := pyLower (pyStrip ansDanger) == "y"
    let output_html := pyLower (pyStrip ansHtml) == "y"
    let default_ext := if output_html then ".html" else ".txt"
    let default_filename := base_name ++ default_ext
    let file_name := if pyStrip ansFile = "" then default_filename else pyStrip ansFile
    let ds := mainDangerousArg sorted_imports include_dangerous
    let output_str :=
      if output_html then generate_html_output sorted_imports nd ds
      else generate_text_output sorted_imports nd ds
    { printed := ["Output saved to " ++ file_name],
      writes := [(file_name, output_str)], exitCode := 0 }

/-- A parse outcome that is not a PE yields the ValueError path. -/
theorem extract_error_of_not_pe (r : ParseResult) (h : ∀ b, r ≠ ParseResult.pe b) :
    extract_and_sort_imports r = .error "Not a valid PE file." := by
  cases r with
  | parseFailed => rfl
  | notPE => rfl
  | pe b => exact absurd rfl (h b)

/-- C7: for every input whose content cannot be parsed or is not a PE image,
extract_and_sort_imports fails with the descriptive error
"Not a valid PE file." and never returns an import table (no partial
result). -/
theorem claim7_extractor_fails_on_invalid (r : ParseResult)
    (h : ∀ b, r ≠ ParseResult.pe b) :
    extract_and_sort_imports r = .error "Not a valid PE file."
    ∧ ∀ t, extract_and_sort_imports r ≠ .ok t := by
  have he := extract_error_of_not_pe r h
  exact ⟨he, fun t ht => by rw [he] at ht; exact Except.noConfusion ht⟩

/-- Witness for C7 at the concrete failed-parse outcome. -/
theorem claim7_extractor_fails_on_invalid_witness :
    extract_and_sort_imports .parseFailed = .error "Not a valid PE file." :=
  (claim7_extractor_fails_on_invalid .parseFailed
    (fun _ hh => ParseResult.noConfusion hh)).1

/-- C3 counterexample: on a failed parse, main prints the error message but
the process exit status is 0, not non-zero: the exception is caught in main
and never re-raised, so the interpreter terminates normally. -/
theorem claim3_counterexample :
    (mainRun [] .parseFailed "y" "n" "out.txt" "sample").printed
        = ["Error: Not a valid PE file."]
    ∧ ¬ (mainRun [] .parseFailed "y" "n" "out.txt" "sample").exitCode ≠ 0 := by
  decide

/-- C3 amended: for every input file on which PE parsing fails, the program
prints an error message and the process terminates with exit status 0 (the
exception is caught by the bare except block in main). -/
theorem claim3_amended (nd : NestedDict) (r : ParseResult)
    (ansD ansH ansF base : String) (h : ∀ b, r ≠ ParseResult.pe b) :
    (mainRun nd r ansD ansH ansF base).printed = ["Error: Not a valid PE file."]
    ∧ (mainRun nd r ansD ansH ansF base).exitCode = 0 := by
  cases r with
  | parseFailed => exact ⟨rfl, rfl⟩
  | notPE => exact ⟨rfl, rfl⟩
  | pe b => exact absurd rfl (h b)

/-- Witness for the amended C3 at a concrete run. -/
theorem claim3_amended_witness :
    (mainRun [] .parseFailed "y" "y" "" "sample").printed
        = ["Error: Not a valid PE file."]
    ∧ (mainRun [] .parseFailed "y" "y" "" "sample").exitCode = 0 :=
  claim3_amended [] .parseFailed "y" "y" "" "sample"
    (fun _ hh => ParseResult.noConfusion hh)

/-- C9: if PE extraction fails, main writes no output file at all: the error
branch is taken before any file is opened, so the write list of the run is
empty. -/
theorem claim9_no_write_on_parse_failure (nd : NestedDict) (r : ParseResult)
    (ansD ansH ansF base : String) (h : ∀ b, r ≠ ParseResult.pe b) :
    (mainRun nd r ansD ansH ansF base).writes = [] := by
  cases r with
  | parseFailed => rfl
  | notPE => rfl
  | pe b => exact absurd rfl (h b)

/-- Witness for C9 at a concrete run. -/
theorem claim9_no_write_on_parse_failure_witness :
    (mainRun [] .notPE "n" "n" "report.html" "sample").writes = [] :=
  claim9_no_write_on_parse_failure [] .notPE "n" "n" "report.html" "sample"
    (fun _ hh => ParseResult.noConfusion hh)

/-- C1 counterexample: a library whose 21 imported functions all lack catalog
entries gets all 21 of them listed, in both renderers: the `printed` counter
only counts functions rendered with an explanation, so uncatalogued functions
are never capped at 20. -/
theorem claim1_counterexample :
    ¬ ((textFuncLines ⟨"desc", []⟩
        ["f01", "f02", "f03", "f04", "f05", "f06", "f07", "f08", "f09", "f10",
         "f11", "f12", "f13", "f14", "f15", "f16", "f17", "f18", "f19", "f20",
         "f21"] 0).length ≤ 20)
    ∧ ¬ ((htmlFuncRows ⟨"desc", []⟩
        ["f01", "f02", "f03", "f04", "f05", "f06", "f07", "f08", "f09", "f10",
         "f11", "f12", "f13", "f14", "f15", "f16", "f17", "f18", "f19", "f20",
         "f21"] 0).length ≤ 20) := by
  decide

/-- Number of functions of `funcs` without a catalog explanation in `info`. -/
def uncatalogedCount (info : DllInfo) (funcs : List String) : Nat :=
  (funcs.filter (fun api => (info.apis.lookup (pyLower api)).isNone)).length

theorem textFuncLines_length_le (info : DllInfo) :
    ∀ (funcs : List String) (printed : Nat), printed < 20 →
      (textFuncLines info funcs printed).length
        ≤ (20 - printed) + uncatalogedCount info funcs := by
  intro funcs
  induction funcs with
  | nil => intro printed _; simp [textFuncLines, uncatalogedCount]
  | cons api rest ih =>
    intro printed hp
    cases hl : info.apis.lookup (pyLower api) with
    | none =>
      have hcnt : uncatalogedCount info (api :: rest) = uncatalogedCount info rest + 1 := by
        simp [uncatalogedCount, List.filter, hl]
      simp only [textFuncLines, hl, if_neg (by omega : ¬ printed ≥ 20), List.length_cons]
      have := ih printed hp
      omega
    | some expl =>
      have hcnt : uncatalogedCount info (api :: rest) = uncatalogedCount info rest := by
        simp [uncatalogedCount, List.filter, hl]
      by_cases h2 : printed + 1 ≥ 20
      · simp only [textFuncLines, hl, if_pos h2, List.length_singleton]
        omega
      · simp only [textFuncLines, hl, if_neg h2, List.length_cons]
        have := ih (printed + 1) (by omega)
        omega

theorem htmlFuncRows_length_eq (info : DllInfo) :
    ∀ (funcs : List String) (printed : Nat),
      (htmlFuncRows info funcs printed).length = (textFuncLines info funcs printed).length := by
  intro funcs
  induction funcs with
  | nil => intro printed; rfl
  | cons api rest ih =>
    intro printed
    cases hl : info.apis.lookup (pyLower api) with
    | none =>
      by_cases h : printed ≥ 20 <;>
        simp [htmlFuncRows, textFuncLines, hl, h, ih]
    | some expl =>
      by_cases h : printed + 1 ≥ 20 <;>
        simp [htmlFuncRows, textFuncLines, hl, h, ih]

/-- C1 amended: in both renderers the cap of 20 applies to the functions
rendered with a catalog explanation; functions without one are exempt from
the cap, so a library's listing has at most 20 plus the number of its
uncatalogued imported functions lines (in particular at most 20 whenever
every imported function is catalogued). -/
theorem claim1_amended (info : DllInfo) (funcs : List String) :
    (textFuncLines info funcs 0).length ≤ 20 + uncatalogedCount info funcs
    ∧ (htmlFuncRows info funcs 0).length ≤ 20 + uncatalogedCount info funcs := by
  have ht := textFuncLines_length_le info funcs 0 (by omega)
  have hh := htmlFuncRows_length_eq info funcs 0
  omega

/-- Membership is preserved by the sorting the script applies. -/
theorem mem_insertionSort {α : Type} (r : α → α → Prop) [DecidableRel r]
    {a : α} {l : List α} : a ∈ List.insertionSort r l ↔ a ∈ l :=
  (List.perm_insertionSort r l).mem_iff

/-- C6: a function of the dangerous set that occurs (case-insensitively) in
the extracted import table appears in the dangerous-function section of the
rendered report, text or HTML, exactly when the user answered yes to the
dangerous-functions prompt (`inc` is main's include_dangerous flag; the
section receives `dangerous_found if include_dangerous else []`). -/
theorem claim6_dangerous_section_iff_opt_in (nd : NestedDict)
    (table : List (String × List String)) (inc : Bool) (api dll : String)
    (fs : List String) (hmem : (dll, fs) ∈ table) (hapi : api ∈ fs)
    (hd : pyLower api ∈ dangerous_functions) :
    (dangerousEntryLine nd api
        ∈ textDangerousSection nd (mainDangerousArg table inc) ↔ inc = true)
    ∧ (htmlDangerousRow nd api
        ∈ htmlDangerousSection nd (mainDangerousArg table inc) ↔ inc = true) := by
  cases inc with
  | false =>
    simp [mainDangerousArg, textDangerousSection, htmlDangerousSection]
  | true =>
    have hfound : api ∈ dangerous_found table := by
      simp only [dangerous_found, List.mem_dedup, List.mem_filter]
      exact ⟨List.mem_flatMap.mpr ⟨(dll, fs), hmem, hapi⟩, List.elem_iff.mpr hd⟩
    have hne : dangerous_found table ≠ [] := List.ne_nil_of_mem hfound
    have harg : mainDangerousArg table true = dangerous_found table := rfl
    have hsorted : api ∈ List.insertionSort lowerLe (dangerous_found table) :=
      (mem_insertionSort lowerLe).mpr hfound
    refine ⟨⟨fun _ => rfl, fun _ => ?_⟩, ⟨fun _ => rfl, fun _ => ?_⟩⟩
    · rw [harg, textDangerousSection, if_neg hne]
      exact List.mem_cons_of_mem _ (List.mem_map_of_mem _ hsorted)
    · rw [harg, htmlDangerousSection, if_neg hne]
      refine List.mem_cons_of_mem _ (List.mem_cons_of_mem _ (List.mem_cons_of_mem _ ?_))
      exact List.mem_append_left _ (List.mem_map_of_mem _ hsorted)

/-- Witness for C6 at a concrete catalog, table and opted-in run. -/
theorem claim6_dangerous_section_iff_opt_in_witness :
    dangerousEntryLine [] "VirtualAlloc"
        ∈ textDangerousSection [] (mainDangerousArg [("a.dll", ["VirtualAlloc"])] true)
      ↔ true = true :=
  (claim6_dangerous_section_iff_opt_in [] [("a.dll", ["VirtualAlloc"])] true
    "VirtualAlloc" "a.dll" ["VirtualAlloc"] (by decide) (by decide) (by decide)).1

/-- Removing the pairs keyed by a DLL outside the catalog does not change a
flatMap whose block function vanishes on them. -/
theorem flatMap_filter_ne_of_vanish {β : Type} (B : String × List String → List β)
    (dll : String) (hB : ∀ p : String × List String, p.1 = dll → B p = []) :
    ∀ table : List (String × List String),
      table.flatMap B = (table.filter (fun p => p.1 != dll)).flatMap B := by
  intro table
  induction table with
  | nil => rfl
  | cons p rest ih =>
    by_cases hp : p.1 = dll
    · have hf : (p.1 != dll) = false := by simp [hp]
      simp [List.filter_cons, hf, hB p hp, ih]
    · have hf : (p.1 != dll) = true := by simp [hp]
      simp [List.filter_cons, hf, ih]

/-- C8: a library whose lower-cased name is not a key of the catalog is
omitted entirely from the per-library body of the report in both renderers:
deleting all its table entries leaves both outputs unchanged, so neither its
name nor any of its functions is rendered. -/
theorem claim8_uncatalogued_library_omitted (nd : NestedDict)
    (table : List (String × List String)) (ds : List String) (dll : String)
    (h : nd.lookup (pyLower dll) = none) :
    generate_text_output table nd ds
      = generate_text_output (table.filter (fun p => p.1 != dll)) nd ds
    ∧ generate_html_output table nd ds
      = generate_html_output (table.filter (fun p => p.1 != dll)) nd ds := by
  have htext : ∀ p : String × List String, p.1 = dll → textDllBlock nd p.1 p.2 = [] := by
    intro p hp; rw [textDllBlock, hp, h]
  have hhtml : ∀ p : String × List String, p.1 = dll → htmlDllBlock nd p.1 p.2 = [] := by
    intro p hp; rw [htmlDllBlock, hp, h]
  constructor
  · unfold generate_text_output textOutputLines
    rw [flatMap_filter_ne_of_vanish (fun p => textDllBlock nd p.1 p.2) dll htext table]
  · unfold generate_html_output htmlOutputLines
    rw [flatMap_filter_ne_of_vanish (fun p => htmlDllBlock nd p.1 p.2) dll hhtml table]

/-- Witness for C8: with an empty catalog, erasing the "x.dll" entries leaves
the rendered text report unchanged. -/
theorem claim8_uncatalogued_library_omitted_witness :
    generate_text_output [("x.dll", ["f"])] [] []
      = generate_text_output ([("x.dll", ["f"])].filter (fun p => p.1 != "x.dll")) [] [] :=
  (claim8_uncatalogued_library_omitted [] [("x.dll", ["f"])] [] "x.dll" rfl).1

/-- No replacement produced by html.escape contains a raw angle bracket. -/
theorem html_escapeChar_no_angle (c : Char) :
    '<' ∉ (html_escapeChar c).data ∧ '>' ∉ (html_escapeChar c).data := by
  unfold html_escapeChar
  split_ifs with h1 h2 h3 h4 h5
  · exact ⟨by decide, by decide⟩
  · exact ⟨by decide, by decide⟩
  · exact ⟨by decide, by decide⟩
  · exact ⟨by decide, by decide⟩
  · exact ⟨by decide, by decide⟩
  · constructor <;> intro hm
    · have h' : '<' = c := by simpa [String.singleton] using hm
      exact h2 h'.symm
    · have h' : '>' = c := by simpa [String.singleton] using hm
      exact h3 h'.symm

/-- An html.escape result never contains a raw angle bracket. -/
theorem html_escape_no_angle (s : String) :
    '<' ∉ (html_escape s).data ∧ '>' ∉ (html_escape s).data := by
  constructor <;> intro hm
  · rcases List.mem_flatMap.mp hm with ⟨c, _, hc⟩
    exact (html_escapeChar_no_angle c).1 hc
  · rcases List.mem_flatMap.mp hm with ⟨c, _, hc⟩
    exact (html_escapeChar_no_angle c).2 hc

/-- The fixed lines of the HTML report that contain no interpolated data. -/
def htmlStaticLines : List String :=
  htmlHeader
    ++ ["<table>", "<tr><th>API Function</th><th>Explanation</th></tr>", "</table>",
        "<h2>Most Dangerous/Suspicious Functions</h2>", "</body></html>"]

/-- A line of the HTML report is either one of the fixed template lines or a
template whose every dynamic part went through html.escape. -/
def EscapedInterpolations (line : String) : Prop :=
  line ∈ htmlStaticLines
  ∨ (∃ s, line = "<h2>" ++ html_escape s ++ "</h2>")
  ∨ (∃ s, line = "<p><strong>DLL Explanation:</strong> " ++ html_escape s ++ "</p>")
  ∨ (∃ a e, line = "<tr><td>" ++ html_escape a ++ "</td><td>" ++ html_escape e ++ "</td></tr>")
  ∨ (∃ a, line = "<tr><td>" ++ html_escape a ++ "</td><td></td></tr>")

theorem htmlFuncRows_shape (info : DllInfo) :
    ∀ (funcs : List String) (printed : Nat) (line : String),
      line ∈ htmlFuncRows info funcs printed →
      (∃ a e, line = "<tr><td>" ++ html_escape a ++ "</td><td>"
          ++ html_escape e ++ "</td></tr>")
      ∨ (∃ a, line = "<tr><td>" ++ html_escape a ++ "</td><td></td></tr>") := by
  intro funcs
  induction funcs with
  | nil => intro printed line h; simp [htmlFuncRows] at h
  | cons api rest ih =>
    intro printed line h
    cases hl : info.apis.lookup (pyLower api) with
    | some expl =>
      by_cases hp : printed + 1 ≥ 20
      · simp only [htmlFuncRows, hl, if_pos hp, List.mem_singleton] at h
        exact Or.inl ⟨api, expl, h⟩
      · simp only [htmlFuncRows, hl, if_neg hp, List.mem_cons] at h
        rcases h with h | h
        · exact Or.inl ⟨api, expl, h⟩
        · exact ih _ _ h
    | none =>
      by_cases hp : printed ≥ 20
      · simp only [htmlFuncRows, hl, if_pos hp, List.mem_singleton] at h
        exact Or.inr ⟨api, h⟩
      · simp only [htmlFuncRows, hl, if_neg hp, List.mem_cons] at h
        rcases h with h | h
        · exact Or.inr ⟨api, h⟩
        · exact ih _ _ h

theorem htmlDangerousRow_shape (nd : NestedDict) (func : String) :
    (∃ a e, htmlDangerousRow nd func = "<tr><td>" ++ html_escape a ++ "</td><td>"
        ++ html_escape e ++ "</td></tr>")
    ∨ (∃ a, htmlDangerousRow nd func = "<tr><td>" ++ html_escape a ++ "</td><td></td></tr>") := by
  cases hfind : findApiExplanation nd func with
  | some e =>
    simp only [htmlDangerousRow, hfind]
    by_cases hc : e ≠ "" ∧ e ≠ DEFAULT_EXPLANATION
    · rw [if_pos hc]; exact Or.inl ⟨func, e, rfl⟩
    · rw [if_neg hc]; exact Or.inr ⟨func, rfl⟩
  | none =>
    simp only [htmlDangerousRow, hfind]
    exact Or.inr ⟨func, rfl⟩

theorem htmlDllBlock_shape (nd : NestedDict) (dll : String) (fs : List String)
    (line : String) (h : line ∈ htmlDllBlock nd dll fs) : EscapedInterpolations line := by
  cases hl : nd.lookup (pyLower dll) with
  | none => simp [htmlDllBlock, hl] at h
  | some info =>
    simp only [htmlDllBlock, hl, List.mem_cons] at h
    rcases h with h | h
    · exact Or.inr (Or.inl ⟨dll, h⟩)
    rcases h with h | h
    · exact Or.inr (Or.inr (Or.inl ⟨info.explanation, h⟩))
    rcases h with h | h
    · exact Or.inl (by rw [h]; decide)
    rcases h with h | h
    · exact Or.inl (by rw [h]; decide)
    rcases List.mem_append.mp h with h | h
    · rcases htmlFuncRows_shape info _ _ line h with h | h
      · exact Or.inr (Or.inr (Or.inr (Or.inl h)))
      · exact Or.inr (Or.inr (Or.inr (Or.inr h)))
    · exact Or.inl (by rw [List.mem_singleton.mp h]; decide)

theorem htmlDangerousSection_shape (nd : NestedDict) (ds : List String)
    (line : String) (h : line ∈ htmlDangerousSection nd ds) :
    EscapedInterpolations line := by
  rw [htmlDangerousSection] at h
  by_cases hds : ds = []
  · rw [if_pos hds] at h; simp at h
  · rw [if_neg hds] at h
    rcases List.mem_cons.mp h with h | h
    · exact Or.inl (by rw [h]; decide)
    rcases List.mem_cons.mp h with h | h
    · exact Or.inl (by rw [h]; decide)
    rcases List.mem_cons.mp h with h | h
    · exact Or.inl (by rw [h]; decide)
    rcases List.mem_append.mp h with h | h
    · rcases List.mem_map.mp h with ⟨x, _, hx⟩
      rcases htmlDangerousRow_shape nd x with ⟨a, e, heq⟩ | ⟨a, heq⟩
      · exact Or.inr (Or.inr (Or.inr (Or.inl ⟨a, e, by rw [← hx, heq]⟩)))
      · exact Or.inr (Or.inr (Or.inr (Or.inr ⟨a, by rw [← hx, heq]⟩)))
    · exact Or.inl (by rw [List.mem_singleton.mp h]; decide)

/-- C10: every line of the generated HTML document is either a fixed template
line or a template whose interpolated dynamic strings (library names,
function names, explanation texts) all passed through html.escape; moreover
html.escape output never contains a raw angle bracket, so special characters
in import names cannot introduce markup. -/
theorem claim10_html_escaping (table : List (String × List String))
    (nd : NestedDict) (ds : List String) :
    (∀ line ∈ htmlOutputLines table nd ds, EscapedInterpolations line)
    ∧ (∀ s : String, '<' ∉ (html_escape s).data ∧ '>' ∉ (html_escape s).data) := by
  constructor
  · intro line h
    rw [htmlOutputLines] at h
    rcases List.mem_append.mp h with h | h
    · rcases List.mem_append.mp h with h | h
      · rcases List.mem_append.mp h with h | h
        · exact Or.inl (List.mem_append_left _ h)
        · rcases List.mem_flatMap.mp h with ⟨p, _, hp⟩
          exact htmlDllBlock_shape nd p.1 p.2 line hp
      · exact htmlDangerousSection_shape nd ds line h
    · exact Or.inl (by rw [List.mem_singleton.mp h]; decide)
  · exact html_escape_no_angle

/-- Witness for C10 at a concrete run and line. -/
theorem claim10_html_escaping_witness :
    EscapedInterpolations "<h1>PE Import Analysis</h1>" :=
  (claim10_html_escaping [] [] []).1 "<h1>PE Import Analysis</h1>" (by decide)

/-- All functions the extractor collects for the library named `dll`, in
source order: one per entry of every import descriptor grouped under `dll`. -/
def collectFuncs (imps : List PEImport) (dll : String) : List String :=
  (imps.filter (fun i => mappedDllName i == dll)).flatMap
    (fun i => i.entries.map renderEntry)

theorem lookup_addFunc (dll f : String) :
    ∀ (m : List (String × List String)) (d : String),
      List.lookup d (addFunc m dll f)
        = if d = dll then (List.lookup d m).map (fun v => v ++ [f])
          else List.lookup d m := by
  intro m
  induction m with
  | nil =>
    intro d
    by_cases hd : d = dll <;> simp [addFunc, List.lookup, hd]
  | cons p rest ih =>
    intro d
    obtain ⟨k, fs⟩ := p
    by_cases hk : k = dll
    · subst hk
      by_cases hd : d = k
      · have hb : (d == k) = true := beq_iff_eq.mpr hd
        simp [addFunc, List.lookup, hb, hd]
      · have hb : (d == k) = false := beq_eq_false_iff_ne.mpr hd
        simp [addFunc, List.lookup, hb, hd]
    · by_cases hd : d = k
      · subst hd
        have hb : (d == d) = true := beq_self_eq_true d
        simp [addFunc, List.lookup, hk, hb]
      · have hb : (d == k) = false := beq_eq_false_iff_ne.mpr hd
        simp [addFunc, hk, List.lookup, hb, ih]

theorem keys_addFunc (dll f : String) :
    ∀ m : List (String × List String),
      (addFunc m dll f).map Prod.fst = m.map Prod.fst := by
  intro m
  induction m with
  | nil => rfl
  | cons p rest ih =>
    obtain ⟨k, fs⟩ := p
    by_cases hk : k = dll <;> simp [addFunc, hk, ih]

theorem lookup_foldl_addFunc (dll : String) :
    ∀ (es : List ImportEntry) (m : List (String × List String)) (d : String),
      List.lookup d (es.foldl (fun acc e => addFunc acc dll (renderEntry e)) m)
        = if d = dll
          then (List.lookup d m).map (fun v => v ++ es.map renderEntry)
          else List.lookup d m := by
  intro es
  induction es with
  | nil =>
    intro m d
    simp only [List.foldl_nil, List.map_nil]
    by_cases hd : d = dll
    · rw [if_pos hd]
      cases ho : List.lookup d m <;> simp
    · rw [if_neg hd]
  | cons e rest ih =>
    intro m d
    simp only [List.foldl_cons, List.map_cons]
    rw [ih]
    by_cases hd : d = dll
    · rw [if_pos hd, if_pos hd, lookup_addFunc, if_pos hd]
      cases ho : List.lookup d m <;> simp
    · rw [if_neg hd, if_neg hd, lookup_addFunc, if_neg hd]

theorem keys_foldl_addFunc (dll : String) :
    ∀ (es : List ImportEntry) (m : List (String × List String)),
      ((es.foldl (fun acc e => addFunc acc dll (renderEntry e)) m).map Prod.fst)
        = m.map Prod.fst := by
  intro es
  induction es with
  | nil => intro m; rfl
  | cons e rest ih => intro m; simp only [List.foldl_cons]; rw [ih, keys_addFunc]

theorem any_key_eq_lookup_isSome :
    ∀ (m : List (String × List String)) (d : String),
      (m.any (fun p => p.1 == d)) = (List.lookup d m).isSome := by
  intro m
  induction m with
  | nil => intro d; rfl
  | cons p rest ih =>
    intro d
    obtain ⟨k, fs⟩ := p
    by_cases hd : k = d
    · have hb : (k == d) = true := beq_iff_eq.mpr hd
      have hb2 : (d == k) = true := beq_iff_eq.mpr hd.symm
      simp [List.any_cons, List.lookup, hb, hb2]
    · have hb : (k == d) = false := beq_eq_false_iff_ne.mpr hd
      have hb2 : (d == k) = false := beq_eq_false_iff_ne.mpr (fun hh => hd hh.symm)
      simp [List.any_cons, List.lookup, hb, hb2, ih]

theorem lookup_append_assoc_lists (m₁ m₂ : List (String × List String)) (d : String) :
    List.lookup d (m₁ ++ m₂)
      = match List.lookup d m₁ with
        | some v => some v
        | none => List.lookup d m₂ := by
  induction m₁ with
  | nil => rfl
  | cons p rest ih =>
    obtain ⟨k, fs⟩ := p
    by_cases hd : d = k
    · have hb : (d == k) = true := beq_iff_eq.mpr hd
      simp [List.lookup, hb]
    · have hb : (d == k) = false := beq_eq_false_iff_ne.mpr hd
      simp [List.lookup, hb, ih]

theorem lookup_addImport (imp : PEImport) (m : List (String × List String)) (d : String) :
    List.lookup d (addImport m imp)
      = if d = mappedDllName imp
        then some (((List.lookup d m).getD []) ++ imp.entries.map renderEntry)
        else List.lookup d m := by
  have hsplit : addImport m imp
      = imp.entries.foldl
          (fun acc e => addFunc acc (mappedDllName imp) (renderEntry e))
          (if m.any (fun p => p.1 == mappedDllName imp) then m
           else m ++ [(mappedDllName imp, [])]) := rfl
  rw [hsplit]
  by_cases hc : (m.any (fun p => p.1 == mappedDllName imp)) = true
  · rw [if_pos hc, lookup_foldl_addFunc]
    by_cases hd : d = mappedDllName imp
    · rw [if_pos hd, if_pos hd]
      have hsome : (List.lookup d m).isSome := by
        rw [← any_key_eq_lookup_isSome, hd]
        exact hc
      obtain ⟨v, hv⟩ := Option.isSome_iff_exists.mp hsome
      rw [hv]
      rfl
    · rw [if_neg hd, if_neg hd]
  · have hcf : (m.any (fun p => p.1 == mappedDllName imp)) = false :=
      Bool.eq_false_iff.mpr hc
    rw [if_neg hc, lookup_foldl_addFunc]
    have hnone : List.lookup (mappedDllName imp) m = none := by
      have h2 := any_key_eq_lookup_isSome m (mappedDllName imp)
      rw [hcf] at h2
      cases ho : List.lookup (mappedDllName imp) m with
      | none => rfl
      | some v => rw [ho] at h2; simp at h2
    by_cases hd : d = mappedDllName imp
    · rw [if_pos hd, if_pos hd, lookup_append_assoc_lists, hd, hnone]
      simp [List.lookup]
    · rw [if_neg hd, if_neg hd, lookup_append_assoc_lists]
      have hb : (d == mappedDllName imp) = false := beq_eq_false_iff_ne.mpr hd
      cases ho : List.lookup d m with
      | some v => rfl
      | none => simp [List.lookup, hb]

theorem keys_addImport (imp : PEImport) (m : List (String × List String)) :
    (addImport m imp).map Prod.fst
      = if (m.any (fun p => p.1 == mappedDllName imp)) = true
        then m.map Prod.fst
        else m.map Prod.fst ++ [mappedDllName imp] := by
  have hsplit : addImport m imp
      = imp.entries.foldl
          (fun acc e => addFunc acc (mappedDllName imp) (renderEntry e))
          (if m.any (fun p => p.1 == mappedDllName imp) then m
           else m ++ [(mappedDllName imp, [])]) := rfl
  rw [hsplit, keys_foldl_addFunc]
  by_cases hc : (m.any (fun p => p.1 == mappedDllName imp)) = true
  · rw [if_pos hc, if_pos hc]
  · rw [if_neg hc, if_neg hc, List.map_append]
    simp

theorem mem_keys_iff_lookup_isSome :
    ∀ (m : List (String × List String)) (d : String),
      d ∈ m.map Prod.fst ↔ (List.lookup d m).isSome := by
  intro m
  induction m with
  | nil => intro d; simp [List.lookup]
  | cons p rest ih =>
    intro d
    obtain ⟨k, fs⟩ := p
    by_cases hd : d = k
    · have hb : (d == k) = true := beq_iff_eq.mpr hd
      simp [List.lookup, hb, hd]
    · have hb : (d == k) = false := beq_eq_false_iff_ne.mpr hd
      simp [List.lookup, hb, hd, ih]

theorem nodup_keys_foldl_addImport :
    ∀ (imps : List PEImport) (m : List (String × List String)),
      (m.map Prod.fst).Nodup → ((imps.foldl addImport m).map Prod.fst).Nodup := by
  intro imps
  induction imps with
  | nil => intro m h; exact h
  | cons imp rest ih =>
    intro m h
    simp only [List.foldl_cons]
    apply ih
    rw [keys_addImport]
    by_cases hc : (m.any (fun p => p.1 == mappedDllName imp)) = true
    · rw [if_pos hc]; exact h
    · rw [if_neg hc]
      have hcf : (m.any (fun p => p.1 == mappedDllName imp)) = false :=
        Bool.eq_false_iff.mpr hc
      have hnotmem : mappedDllName imp ∉ m.map Prod.fst := by
        rw [mem_keys_iff_lookup_isSome, ← any_key_eq_lookup_isSome, hcf]
        simp
      simp [List.nodup_append, h, hnotmem]

theorem mem_assoc_iff_lookup_of_nodup :
    ∀ (m : List (String × List String)), (m.map Prod.fst).Nodup →
      ∀ (d : String) (v : List String), ((d, v) ∈ m ↔ List.lookup d m = some v) := by
  intro m
  induction m with
  | nil => intro _ d v; simp [List.lookup]
  | cons p rest ih =>
    intro h d v
    obtain ⟨k, fs⟩ := p
    rw [List.map_cons] at h
    have h1 : k ∉ rest.map Prod.fst := (List.nodup_cons.mp h).1
    have h2 : (rest.map Prod.fst).Nodup := (List.nodup_cons.mp h).2
    by_cases hd : d = k
    · subst hd
      have hb : (d == d) = true := beq_self_eq_true d
      constructor
      · intro hmem
        rcases List.mem_cons.mp hmem with heq | hmem2
        · have hv : v = fs := (Prod.ext_iff.mp heq).2
          simp [List.lookup, hb, hv]
        · exact absurd (List.mem_map_of_mem Prod.fst hmem2) h1
      · intro hl
        have : fs = v := by simpa [List.lookup, hb] using hl
        rw [← this]
        exact List.mem_cons_self _ _
    · have hb : (d == k) = false := beq_eq_false_iff_ne.mpr hd
      constructor
      · intro hmem
        rcases List.mem_cons.mp hmem with heq | hmem2
        · exact absurd (Prod.ext_iff.mp heq).1 hd
        · simp only [List.lookup, hb]
          exact (ih h2 d v).mp hmem2
      · intro hl
        simp only [List.lookup, hb] at hl
        exact List.mem_cons_of_mem _ ((ih h2 d v).mpr hl)

theorem lookup_foldl_addImport :
    ∀ (imps : List PEImport) (m : List (String × List String)) (d : String),
      List.lookup d (imps.foldl addImport m)
        = match List.lookup d m with
          | some v => some (v ++ collectFuncs imps d)
          | none =>
            if imps.any (fun i => mappedDllName i == d)
            then some (collectFuncs imps d) else none := by
  intro imps
  induction imps with
  | nil =>
    intro m d
    simp only [List.foldl_nil]
    cases ho : List.lookup d m <;> simp [collectFuncs]
  | cons imp rest ih =>
    intro m d
    simp only [List.foldl_cons]
    rw [ih, lookup_addImport]
    by_cases hd : d = mappedDllName imp
    · have hfil : (mappedDllName imp == d) = true := beq_iff_eq.mpr hd.symm
      have hcol : collectFuncs (imp :: rest) d
          = imp.entries.map renderEntry ++ collectFuncs rest d := by
        simp [collectFuncs, List.filter_cons, hfil]
      rw [if_pos hd]
      cases ho : List.lookup d m with
      | some v => simp [hcol, List.append_assoc]
      | none => simp [hcol, List.any_cons, hfil]
    · have hfil : (mappedDllName imp == d) = false :=
        beq_eq_false_iff_ne.mpr (fun hh => hd hh.symm)
      have hcol : collectFuncs (imp :: rest) d = collectFuncs rest d := by
        simp [collectFuncs, List.filter_cons, hfil]
      rw [if_neg hd]
      cases ho : List.lookup d m with
      | some v => simp [hcol]
      | none => simp [hcol, List.any_cons, hfil]

theorem nodup_keys_buildTable (imps : List PEImport) :
    ((buildTable imps).map Prod.fst).Nodup :=
  nodup_keys_foldl_addImport imps [] (by simp)

theorem lookup_buildTable (imps : List PEImport) (d : String) :
    List.lookup d (buildTable imps)
      = if imps.any (fun i => mappedDllName i == d)
        then some (collectFuncs imps d) else none := by
  unfold buildTable
  rw [lookup_foldl_addImport]
  rfl

theorem any_mapped_iff_mem (imps : List PEImport) (d : String) :
    (imps.any fun i => mappedDllName i == d) = true ↔ d ∈ imps.map mappedDllName := by
  rw [List.any_eq_true]
  constructor
  · rintro ⟨i, hi, hbe⟩
    exact List.mem_map.mpr ⟨i, hi, beq_iff_eq.mp hbe⟩
  · intro hm
    rcases List.mem_map.mp hm with ⟨i, hi, he⟩
    exact ⟨i, hi, beq_iff_eq.mpr he⟩

theorem mem_keys_buildTable (imps : List PEImport) (d : String) :
    d ∈ (buildTable imps).map Prod.fst ↔ d ∈ imps.map mappedDllName := by
  rw [mem_keys_iff_lookup_isSome, lookup_buildTable]
  by_cases h : (imps.any fun i => mappedDllName i == d) = true
  · simp [h, (any_mapped_iff_mem imps d).mp h]
  · have hf : (imps.any fun i => mappedDllName i == d) = false := Bool.eq_false_iff.mpr h
    simp only [hf, if_false, Option.isSome_none, Bool.false_eq_true, false_iff]
    intro hm
    exact h ((any_mapped_iff_mem imps d).mpr hm)

theorem extract_ok_eq (b : PEBinary) (t : List (String × List String))
    (h : extract_and_sort_imports (.pe b) = .ok t) :
    t = List.insertionSort pairLe
      ((buildTable b.imports).map (fun p => (p.1, List.insertionSort lowerLe p.2))) := by
  have h' := h
  simp only [extract_and_sort_imports] at h'
  exact (Except.ok.inj h').symm

theorem extract_mem_eq (b : PEBinary) (t : List (String × List String))
    (h : extract_and_sort_imports (.pe b) = .ok t) (dll : String) (fs : List String)
    (hm : (dll, fs) ∈ t) :
    fs = List.insertionSort lowerLe (collectFuncs b.imports dll) := by
  rw [extract_ok_eq b t h] at hm
  have hm2 : (dll, fs) ∈ (buildTable b.imports).map
      (fun p => (p.1, List.insertionSort lowerLe p.2)) :=
    (mem_insertionSort pairLe).mp hm
  rcases List.mem_map.mp hm2 with ⟨⟨pd, pv⟩, hp, heq⟩
  have hpd : pd = dll := (Prod.ext_iff.mp heq).1
  have hpv : List.insertionSort lowerLe pv = fs := (Prod.ext_iff.mp heq).2
  have hnd := nodup_keys_buildTable b.imports
  have hlk : List.lookup pd (buildTable b.imports) = some pv :=
    (mem_assoc_iff_lookup_of_nodup _ hnd pd pv).mp hp
  rw [lookup_buildTable] at hlk
  by_cases ha : (b.imports.any fun i => mappedDllName i == pd) = true
  · rw [if_pos ha] at hlk
    have hpv2 : pv = collectFuncs b.imports pd := (Option.some.inj hlk).symm
    rw [← hpv, hpv2, hpd]
  · rw [if_neg ha] at hlk
    exact Option.noConfusion hlk

/-- C2 counterexample: a PE importing the same named function twice from the
same DLL yields a function list with a duplicate entry: the extractor never
deduplicates, it only sorts. -/
theorem claim2_counterexample :
    extract_and_sort_imports (.pe ⟨[⟨"a.dll", [⟨"f", 1⟩, ⟨"f", 2⟩]⟩]⟩)
      = .ok [("a.dll", ["f", "f"])]
    ∧ ¬ (["f", "f"] : List String).Nodup := by
  exact ⟨by decide, by decide⟩

/-- C2 amended: the function list returned for each library is not
deduplicated: it is a permutation of the rendered names of all import
entries of that library, one element per entry, duplicates retained. -/
theorem claim2_amended_one_per_entry (b : PEBinary) (t : List (String × List String))
    (h : extract_and_sort_imports (.pe b) = .ok t) (dll : String) (fs : List String)
    (hm : (dll, fs) ∈ t) :
    fs.Perm (collectFuncs b.imports dll) := by
  rw [extract_mem_eq b t h dll fs hm]
  exact List.perm_insertionSort lowerLe _

/-- Witness for the amended C2 at a concrete PE with a duplicated entry. -/
theorem claim2_amended_one_per_entry_witness :
    (["f", "f"] : List String).Perm
      (collectFuncs [⟨"a.dll", [⟨"f", 1⟩, ⟨"f", 2⟩]⟩] "a.dll") :=
  claim2_amended_one_per_entry ⟨[⟨"a.dll", [⟨"f", 1⟩, ⟨"f", 2⟩]⟩]⟩
    [("a.dll", ["f", "f"])] (by decide) "a.dll" ["f", "f"] (by decide)

/-- C4: for a PE with N distinct import library names (after the
UNKNOWN_DLL fallback), the extractor returns exactly N keys: the key list is
a permutation of the distinct library names, the keys are sorted
case-insensitively among themselves, and every function list is sorted
case-insensitively. -/
theorem claim4_extractor_shape (b : PEBinary) (t : List (String × List String))
    (h : extract_and_sort_imports (.pe b) = .ok t) :
    t.length = ((b.imports.map mappedDllName).dedup).length
    ∧ (t.map Prod.fst).Perm ((b.imports.map mappedDllName).dedup)
    ∧ (t.map Prod.fst).Sorted lowerLe
    ∧ ∀ p ∈ t, p.2.Sorted lowerLe := by
  have he := extract_ok_eq b t h
  have hperm0 : t.Perm ((buildTable b.imports).map
      (fun p => (p.1, List.insertionSort lowerLe p.2))) := by
    rw [he]; exact List.perm_insertionSort pairLe _
  have hkeysmap : (((buildTable b.imports).map
      (fun p => (p.1, List.insertionSort lowerLe p.2))).map Prod.fst)
      = (buildTable b.imports).map Prod.fst := by
    rw [List.map_map]; rfl
  have hkeysperm : (t.map Prod.fst).Perm ((buildTable b.imports).map Prod.fst) := by
    have hx := hperm0.map Prod.fst
    rwa [hkeysmap] at hx
  have hnd := nodup_keys_buildTable b.imports
  have hndt : (t.map Prod.fst).Nodup := hkeysperm.nodup_iff.mpr hnd
  have hpermdedup : (t.map Prod.fst).Perm ((b.imports.map mappedDllName).dedup) := by
    rw [List.perm_ext_iff_of_nodup hndt (List.nodup_dedup _)]
    intro a
    rw [hkeysperm.mem_iff, List.mem_dedup, mem_keys_buildTable]
  refine ⟨?_, hpermdedup, ?_, ?_⟩
  · have hlen := hpermdedup.length_eq
    simpa using hlen
  · have hs : t.Sorted pairLe := by
      rw [he]; exact List.sorted_insertionSort pairLe _
    exact List.pairwise_map.mpr hs
  · intro p hp
    rw [he] at hp
    have hp2 := (mem_insertionSort pairLe).mp hp
    rcases List.mem_map.mp hp2 with ⟨q, _, heq⟩
    rw [← heq]
    exact List.sorted_insertionSort lowerLe q.2

/-- Witness for C4 at a concrete two-library PE. -/
theorem claim4_extractor_shape_witness :
    ([("a.dll", ["Afun"]), ("B.dll", ["zfun"])] : List (String × List String)).length
      = ((([⟨"B.dll", [⟨"zfun", 0⟩]⟩, ⟨"a.dll", [⟨"Afun", 1⟩]⟩] : List PEImport).map
          mappedDllName).dedup).length :=
  (claim4_extractor_shape ⟨[⟨"B.dll", [⟨"zfun", 0⟩]⟩, ⟨"a.dll", [⟨"Afun", 1⟩]⟩]⟩
    [("a.dll", ["Afun"]), ("B.dll", ["zfun"])] (by decide)).1

/-- C5: every function name in the returned table comes from an import entry
of that library and is either the entry's real (non-empty) name or the
deterministic placeholder "Ordinal_" followed by the entry's ordinal. -/
theorem claim5_name_or_ordinal_placeholder (b : PEBinary)
    (t : List (String × List String)) (h : extract_and_sort_imports (.pe b) = .ok t)
    (dll : String) (fs : List String) (f : String)
    (hm : (dll, fs) ∈ t) (hf : f ∈ fs) :
    ∃ imp ∈ b.imports, mappedDllName imp = dll ∧ ∃ e ∈ imp.entries,
      (e.name ≠ "" ∧ f = e.name)
      ∨ (e.name = "" ∧ f = "Ordinal_" ++ toString e.ordinal) := by
  have hfs := extract_mem_eq b t h dll fs hm
  rw [hfs] at hf
  have hf2 : f ∈ collectFuncs b.imports dll := (mem_insertionSort lowerLe).mp hf
  rcases List.mem_flatMap.mp hf2 with ⟨imp, himp, hfe⟩
  have himps := List.mem_filter.mp himp
  rcases List.mem_map.mp hfe with ⟨e, he, hre⟩
  refine ⟨imp, himps.1, beq_iff_eq.mp himps.2, e, he, ?_⟩
  by_cases hn : e.name = ""
  · exact Or.inr ⟨hn, by rw [← hre]; simp [renderEntry, hn]⟩
  · exact Or.inl ⟨hn, by rw [← hre]; simp [renderEntry, hn]⟩

/-- Witness for C5 at a concrete nameless entry rendered as Ordinal_7. -/
theorem claim5_name_or_ordinal_placeholder_witness :
    ∃ imp ∈ ([⟨"a.dll", [⟨"", 7⟩]⟩] : List PEImport), mappedDllName imp = "a.dll"
      ∧ ∃ e ∈ imp.entries,
        (e.name ≠ "" ∧ "Ordinal_7" = e.name)
        ∨ (e.name = "" ∧ "Ordinal_7" = "Ordinal_" ++ toString e.ordinal) :=
  claim5_name_or_ordinal_placeholder ⟨[⟨"a.dll", [⟨"", 7⟩]⟩]⟩
    [("a.dll", ["Ordinal_7"])] (by decide) "a.dll" ["Ordinal_7"] "Ordinal_7"
    (by decide) (by decide)

end PEA
